import Mathlib

/-!
# Window extractor of `crystalball/collect.py`

A shallow embedding of `process_dataset` from `src/crystalball/collect.py`,
the windowing / feature-extraction kernel of the power-consumption pipeline.

Modelling conventions:
* An observation (`CombinedData` row) keeps only the fields `process_dataset`
  reads.  `dtime` is an integer number of hours (timestamps are
  hourly-resolution, and the code only adds whole-hour `timedelta`s to them
  and compares for equality, so this is exact).  All other fields are `Rat`:
  the code never does arithmetic on them, it only copies them into the numpy
  output arrays, so rationals model the 64-bit floats exactly.
* `np.zeros((n, w))` raises `ValueError` when `n` is negative; the embedding
  returns `Except.error` in that case, mirroring the exception.
* The per-window fixed-size buffers `in_working` / `out_working` together
  with the `assert inwork_index == INPUT_LENGTH` / `outwork_index ==
  OUTPUT_LENGTH` checks mean the Python function aborts with an exception
  (IndexError on buffer overflow, or AssertionError) exactly when the built
  feature/target rows do not have the expected lengths; the embedding
  returns `Except.error "AssertionError"` in exactly that situation.
* Observation counts: the loop bound is `maxdataindex = len(data) - 1 -
  FUTURE_HOURS - HISTORICAL_HOURS`, taken verbatim from line 48 of the
  source (including its off-by-one behaviour).
* The source hard-codes `HISTORICAL_HOURS = 48` and `FUTURE_HOURS = 48`; the
  embedding takes `H` and `F` as parameters (the spec's `history_hours` /
  `future_hours`) and the constants are recorded separately.
-/

/-- One joined observation row (`CombinedData`): only the fields that
`process_dataset` reads. -/
structure Obs where
  dtime : Int
  year : Rat
  dayofweek : Rat
  hour : Rat
  latitude : Rat
  longitude : Rat
  weather_description_id : Rat
  temperature : Rat
  power_mw : Rat
deriving DecidableEq, Inhabited

/-- Source constant `HISTORICAL_HOURS` (the embedding's `H` parameter). -/
def HISTORICAL_HOURS : Nat := 48

/-- Source constant `FUTURE_HOURS` (the embedding's `F` parameter). -/
def FUTURE_HOURS : Nat := 48

/-- Source constant `START_END_TDIFF = timedelta(hours=H + F - 1)`, in hours. -/
def START_END_TDIFF (H F : Nat) : Int := (H : Int) + (F : Int) - 1

/-- Source constant `START_NOW_TDIFF = timedelta(hours=H - 1)`, in hours. -/
def START_NOW_TDIFF (H : Nat) : Int := (H : Int) - 1

/-- Source constant `INPUT_LENGTH = HISTORICAL_HOURS * 3 + FUTURE_HOURS * 2 + 5`. -/
def INPUT_LENGTH (H F : Nat) : Nat := H * 3 + F * 2 + 5

/-- Source constant `OUTPUT_LENGTH = FUTURE_HOURS`. -/
def OUTPUT_LENGTH (F : Nat) : Nat := F

/-- A numpy 2-d array of floats: its column count (part of the numpy shape,
meaningful even with zero rows) and its rows. -/
structure NMatrix where
  cols : Nat
  rows : List (List Rat)
deriving DecidableEq, Inhabited

/-- The window `working_set = data[i : i + H + F]` sliced in the loop body. -/
def windowOf (H F : Nat) (data : List Obs) (i : Nat) : List Obs :=
  (data.drop i).take (H + F)

/-- The five static fields loaded from `now` (lines 88-92). -/
def staticFields (now : Obs) : List Rat :=
  [now.year, now.dayofweek, now.hour, now.latitude, now.longitude]

/-- The feature row built for one window: the five static fields, then for
each observation `(weather_description_id, temperature)` and, when
`w.dtime <= now.dtime`, also `power_mw` (lines 88-107). -/
def inRow (now : Obs) (w : List Obs) : List Rat :=
  staticFields now ++ w.flatMap fun o =>
    if o.dtime ≤ now.dtime then
      [o.weather_description_id, o.temperature, o.power_mw]
    else
      [o.weather_description_id, o.temperature]

/-- The target row built for one window: `power_mw` of each observation with
`w.dtime > now.dtime`, in order (lines 109-111). -/
def outRow (now : Obs) (w : List Obs) : List Rat :=
  w.flatMap fun o => if o.dtime ≤ now.dtime then [] else [o.power_mw]

/-- The two contiguity checks of lines 79 and 83, as a proposition: the
window is kept (not skipped) exactly when both timestamp-delta equalities
hold. -/
def validWindow (H F : Nat) (w : List Obs) : Prop :=
  (w.headD default).dtime + START_END_TDIFF H F = (w.getLastD default).dtime ∧
  (w.headD default).dtime + START_NOW_TDIFF H = (w.getD (H - 1) default).dtime

instance (H F : Nat) (w : List Obs) : Decidable (validWindow H F w) := by
  unfold validWindow
  infer_instance

/-- One iteration of the extraction loop (lines 74-120) on an already-sliced
window: `.ok none` means the window was skipped by a contiguity check,
`.ok (some (inw, outw))` means the feature/target rows were appended, and
`.error` means the Python code raised (buffer overflow or assertion
failure, both of which happen exactly when the built rows do not have
lengths `INPUT_LENGTH` and `OUTPUT_LENGTH`). -/
def processWindow (H F : Nat) (w : List Obs) :
    Except String (Option (List Rat × List Rat)) :=
  if (w.headD default).dtime + START_END_TDIFF H F ≠ (w.getLastD default).dtime then
    .ok none
  else if (w.headD default).dtime + START_NOW_TDIFF H ≠ (w.getD (H - 1) default).dtime then
    .ok none
  else if (inRow (w.getD (H - 1) default) w).length = INPUT_LENGTH H F ∧
      (outRow (w.getD (H - 1) default) w).length = OUTPUT_LENGTH F then
    .ok (some (inRow (w.getD (H - 1) default) w, outRow (w.getD (H - 1) default) w))
  else
    .error "AssertionError"

/-- The extraction loop over a list of candidate start indices, returning
the accumulated feature rows, target rows, and `skip_count` (lines 66-120). -/
def loopWindows (H F : Nat) (data : List Obs) :
    List Nat → Except String (List (List Rat) × List (List Rat) × Nat)
  | [] => .ok ([], [], 0)
  | i :: is =>
    match processWindow H F (windowOf H F data i) with
    | .error e => .error e
    | .ok none =>
      match loopWindows H F data is with
      | .error e => .error e
      | .ok (ins, outs, sk) => .ok (ins, outs, sk + 1)
    | .ok (some p) =>
      match loopWindows H F data is with
      | .error e => .error e
      | .ok (ins, outs, sk) => .ok (p.1 :: ins, p.2 :: outs, sk)

/-- Loop bound `maxdataindex = len(data) - 1 - FUTURE_HOURS - HISTORICAL_HOURS`
(line 48), clamped at zero: the number of loop iterations `range(0,
maxdataindex)` actually runs (`Int.toNat` of the possibly-negative value). -/
def maxN (H F : Nat) (data : List Obs) : Nat :=
  data.length - 1 - F - H

/-- Function `process_dataset` with the skip counter exposed: allocate the output
arrays (raising `ValueError` if `maxdataindex` is negative, as `np.zeros`
does), run the loop over `range(0, maxdataindex)`, and trim the unused
rows. -/
def process_dataset_full (H F : Nat) (data : List Obs) :
    Except String (NMatrix × NMatrix × Nat) :=
  let maxdataindex : Int := (data.length : Int) - 1 - (F : Int) - (H : Int)
  if maxdataindex < 0 then
    .error "ValueError: negative dimensions are not allowed"
  else
    match loopWindows H F data (List.range maxdataindex.toNat) with
    | .error e => .error e
    | .ok (ins, outs, sk) =>
      .ok (⟨INPUT_LENGTH H F, ins⟩, ⟨OUTPUT_LENGTH F, outs⟩, sk)

/-- Function `process_dataset(data)` (lines 34-129): the returned
`(input_data, output_data)` pair. -/
def process_dataset (H F : Nat) (data : List Obs) :
    Except String (NMatrix × NMatrix) :=
  (process_dataset_full H F data).map fun r => (r.1, r.2.1)

/-- Number of candidate windows in the loop range that pass both contiguity
checks ("valid windows"). -/
def validwindowcount (H F : Nat) (data : List Obs) : Nat :=
  ((List.range (maxN H F data)).filter fun i =>
    decide (validWindow H F (windowOf H F data i))).length

/-- Strict ascent of the `dtime` fields (the spec's sortedness invariant). -/
def strictAsc (l : List Obs) : Prop :=
  ∀ k, k < l.length → ∀ j, j < k →
    (l.getD j default).dtime < (l.getD k default).dtime

instance (l : List Obs) : Decidable (strictAsc l) := by
  unfold strictAsc
  infer_instance

/-- Gap-free consecutive hourly sequence: the `j`-th observation is exactly
`j` hours after the first. -/
def hourlyConsecutive (l : List Obs) : Prop :=
  ∀ j, j < l.length →
    (l.getD j default).dtime = (l.getD 0 default).dtime + j

instance (l : List Obs) : Decidable (hourlyConsecutive l) := by
  unfold hourlyConsecutive
  infer_instance

/-! ## Basic lemmas about windows and rows, claim formalization rationale

Claims about the extractor's candidate windows quantify over the loop's
candidate start indices `i < maxN H F data`; a "1-hour gap inserted" into a
gap-free hourly sequence is modelled by deleting one interior observation
(`List.eraseIdx`), which leaves a sequence whose consecutive timestamps
differ by one hour except for a single two-hour jump. -/

theorem length_windowOf {H F : Nat} {data : List Obs} {i : Nat}
    (h : i + (H + F) ≤ data.length) : (windowOf H F data i).length = H + F := by
  simp only [windowOf, List.length_take, List.length_drop]
  omega

theorem getD_windowOf {H F : Nat} {data : List Obs} {i k : Nat} (d : Obs)
    (hk : k < H + F) :
    (windowOf H F data i).getD k d = data.getD (i + k) d := by
  simp only [windowOf, List.getD_eq_getElem?_getD, List.getElem?_take,
    List.getElem?_drop, hk, if_true]

theorem headD_eq_getD (l : List Obs) (d : Obs) : l.headD d = l.getD 0 d := by
  cases l <;> rfl

theorem getLastD_eq_getD (l : List Obs) (d : Obs) :
    l.getLastD d = l.getD (l.length - 1) d := by
  rw [List.getLastD_eq_getLast?, List.getLast?_eq_getElem?,
    List.getD_eq_getElem?_getD]

/-- The variable-length part of the feature row (the per-observation loop of
lines 96-112). -/
theorem inRow_eq (now : Obs) (w : List Obs) :
    inRow now w = staticFields now ++ w.flatMap fun o =>
      if o.dtime ≤ now.dtime then
        [o.weather_description_id, o.temperature, o.power_mw]
      else
        [o.weather_description_id, o.temperature] := rfl

theorem length_inRow (now : Obs) (w : List Obs) :
    (inRow now w).length =
      5 + 2 * w.length + w.countP fun o => decide (o.dtime ≤ now.dtime) := by
  induction w with
  | nil => rfl
  | cons o t ih =>
    simp only [inRow, staticFields, List.flatMap_cons, List.length_append,
      List.length_cons, List.countP_cons] at *
    by_cases h : o.dtime ≤ now.dtime <;> simp [h] at * <;> omega

theorem length_outRow (now : Obs) (w : List Obs) :
    (outRow now w).length =
      w.countP fun o => !decide (o.dtime ≤ now.dtime) := by
  induction w with
  | nil => rfl
  | cons o t ih =>
    simp only [outRow, List.flatMap_cons, List.length_append, List.countP_cons] at *
    by_cases h : o.dtime ≤ now.dtime <;> simp [h] at * <;> omega

/-! ## Characterizing one loop iteration -/

theorem processWindow_ok_none_iff {H F : Nat} {w : List Obs} :
    processWindow H F w = .ok none ↔ ¬ validWindow H F w := by
  unfold processWindow validWindow
  by_cases h1 : (w.headD default).dtime + START_END_TDIFF H F =
      (w.getLastD default).dtime
  · rw [if_neg (not_not_intro h1)]
    by_cases h2 : (w.headD default).dtime + START_NOW_TDIFF H =
        (w.getD (H - 1) default).dtime
    · rw [if_neg (not_not_intro h2)]
      constructor
      · intro h
        split at h <;> simp at h
      · intro h
        exact absurd ⟨h1, h2⟩ h
    · rw [if_pos h2]
      constructor
      · intro _ hc
        exact h2 hc.2
      · intro _
        rfl
  · rw [if_pos h1]
    constructor
    · intro _ hc
      exact h1 hc.1
    · intro _
      rfl

theorem processWindow_eq_some {H F : Nat} {w : List Obs}
    (hv : validWindow H F w)
    (hin : (inRow (w.getD (H - 1) default) w).length = INPUT_LENGTH H F)
    (hout : (outRow (w.getD (H - 1) default) w).length = OUTPUT_LENGTH F) :
    processWindow H F w =
      .ok (some (inRow (w.getD (H - 1) default) w,
                 outRow (w.getD (H - 1) default) w)) := by
  obtain ⟨h1, h2⟩ := hv
  unfold processWindow
  rw [if_neg (not_not_intro h1), if_neg (not_not_intro h2),
    if_pos ⟨hin, hout⟩]

/-! ## Counting history and future observations in a sorted window -/

theorem countP_history {H F : Nat} {w : List Obs} {now : Obs} (hH : 1 ≤ H)
    (hlen : w.length = H + F) (hsa : strictAsc w)
    (hnow : now = w.getD (H - 1) default) :
    (w.countP fun o => decide (o.dtime ≤ now.dtime)) = H := by
  have hfil1 : (w.take H).filter (fun o => decide (o.dtime ≤ now.dtime)) =
      w.take H := by
    rw [List.filter_eq_self]
    intro a ha
    rcases List.mem_iff_getElem.mp ha with ⟨n, hn, rfl⟩
    have hnH : n < H := by
      have := hn
      rw [List.length_take] at this
      omega
    have hnw : n < w.length := by omega
    have ha1 : (w.take H)[n] = w.getD n default := by
      rw [List.getElem_take, List.getD_eq_getElem]
    rw [ha1, hnow]
    simp only [decide_eq_true_eq]
    rcases Nat.lt_or_ge n (H - 1) with hc | hc
    · exact le_of_lt (hsa (H - 1) (by omega) n hc)
    · have hn1 : n = H - 1 := by omega
      rw [hn1]
  have hfil2 : (w.drop H).filter (fun o => decide (o.dtime ≤ now.dtime)) =
      [] := by
    rw [List.filter_eq_nil_iff]
    intro a ha
    rcases List.mem_iff_getElem.mp ha with ⟨n, hn, rfl⟩
    have hnw : H + n < w.length := by
      have := hn
      rw [List.length_drop] at this
      omega
    have ha1 : (w.drop H)[n] = w.getD (H + n) default := by
      rw [List.getElem_drop, List.getD_eq_getElem]
    rw [ha1, hnow]
    simp only [decide_eq_true_eq, not_le]
    exact hsa (H + n) hnw (H - 1) (by omega)
  have hw : w.take H ++ w.drop H = w := List.take_append_drop H w
  rw [List.countP_eq_length_filter, ← hw, List.filter_append, hfil1, hfil2,
    List.append_nil, List.length_take]
  omega

theorem countP_future {H F : Nat} {w : List Obs} {now : Obs} (hH : 1 ≤ H)
    (hlen : w.length = H + F) (hsa : strictAsc w)
    (hnow : now = w.getD (H - 1) default) :
    (w.countP fun o => !decide (o.dtime ≤ now.dtime)) = F := by
  have h1 := countP_history hH hlen hsa hnow
  have h2 := List.length_eq_countP_add_countP
    (fun o => decide (o.dtime ≤ now.dtime)) w
  simp only [decide_eq_true_eq, decide_not] at h2
  omega

/-- In a strictly ascending window of length `H + F` that passes both
contiguity checks, the loop body appends exactly the feature and target rows
(never the error branch). -/
theorem processWindow_of_strictAsc {H F : Nat} {w : List Obs} (hH : 1 ≤ H)
    (hlen : w.length = H + F) (hsa : strictAsc w) (hv : validWindow H F w) :
    processWindow H F w =
      .ok (some (inRow (w.getD (H - 1) default) w,
                 outRow (w.getD (H - 1) default) w)) := by
  apply processWindow_eq_some hv
  · rw [length_inRow, countP_history hH hlen hsa rfl, hlen, INPUT_LENGTH]
    omega
  · rw [length_outRow, countP_future hH hlen hsa rfl, OUTPUT_LENGTH]

theorem strictAsc_windowOf {H F : Nat} {data : List Obs} {i : Nat}
    (hsa : strictAsc data) : strictAsc (windowOf H F data i) := by
  intro k hk j hj
  have hlen : (windowOf H F data i).length = min (H + F) (data.length - i) := by
    simp [windowOf]
  rw [hlen] at hk
  rw [getD_windowOf default (by omega), getD_windowOf default (by omega)]
  exact hsa (i + k) (by omega) (i + j) (by omega)

/-! ## Removing one observation from a gap-free sequence -/

theorem getD_eraseIdx_lt {l : List Obs} {m j : Nat} (h : j < m) :
    (l.eraseIdx m).getD j default = l.getD j default := by
  induction l generalizing m j with
  | nil => rfl
  | cons a t ih =>
    cases m with
    | zero => omega
    | succ m =>
      cases j with
      | zero => rfl
      | succ j =>
        simp only [List.eraseIdx_cons_succ, List.getD_cons_succ]
        exact ih (by omega)

theorem getD_eraseIdx_ge {l : List Obs} {m j : Nat} (hm : m ≤ j)
    (hl : m < l.length) :
    (l.eraseIdx m).getD j default = l.getD (j + 1) default := by
  induction l generalizing m j with
  | nil => simp at hl
  | cons a t ih =>
    cases m with
    | zero => rfl
    | succ m =>
      cases j with
      | zero => omega
      | succ j =>
        simp only [List.eraseIdx_cons_succ, List.getD_cons_succ]
        exact ih (by omega) (by simp at hl; omega)

theorem list_eq_of_getD {l₁ l₂ : List Obs} (hlen : l₁.length = l₂.length)
    (h : ∀ k, k < l₁.length → l₁.getD k default = l₂.getD k default) :
    l₁ = l₂ := by
  apply List.ext_getElem hlen
  intro n h1 h2
  have hn := h n h1
  rwa [List.getD_eq_getElem _ _ h1, List.getD_eq_getElem _ _ h2] at hn

theorem strictAsc_of_hourlyConsecutive {l : List Obs}
    (h : hourlyConsecutive l) : strictAsc l := by
  intro k hk j hj
  rw [h k hk, h j (by omega)]
  omega

/-- In a gap-free hourly sequence with one interior observation removed,
observation `j` of the result sits `j` hours after the start, plus one more
hour once `j` passes the gap position. -/
theorem getD_dtime_eraseIdx {orig : List Obs} {g : Nat}
    (hcons : hourlyConsecutive orig) (hg : g + 2 ≤ orig.length) :
    ∀ j, j < (orig.eraseIdx (g + 1)).length →
      ((orig.eraseIdx (g + 1)).getD j default).dtime =
        (orig.getD 0 default).dtime + (j : Int) +
          (if g < j then 1 else 0) := by
  have hlen : (orig.eraseIdx (g + 1)).length = orig.length - 1 := by
    rw [List.length_eraseIdx, if_pos (by omega)]
  intro j hj
  rw [hlen] at hj
  by_cases hgj : g < j
  · rw [if_pos hgj, getD_eraseIdx_ge (by omega) (by omega),
      hcons (j + 1) (by omega)]
    push_cast
    ring
  · rw [if_neg hgj, getD_eraseIdx_lt (by omega), hcons j (by omega)]
    ring

/-! ## Strict ascent forces at-least-hourly growth -/

theorem strictAsc_getD_le {w : List Obs} (hsa : strictAsc w) :
    ∀ (d j : Nat), j + d < w.length →
      (w.getD j default).dtime + (d : Int) ≤ (w.getD (j + d) default).dtime := by
  intro d
  induction d with
  | zero =>
    intro j h
    simp
  | succ d ih =>
    intro j h
    have h1 := ih j (by omega)
    have h2 : (w.getD (j + d) default).dtime < (w.getD (j + d + 1) default).dtime :=
      hsa (j + d + 1) (by omega) (j + d) (by omega)
    have hj : j + (d + 1) = j + d + 1 := by omega
    rw [hj]
    push_cast
    push_cast at h1
    omega

/-- Core of the contiguity argument: in a strictly ascending window of
length `H + F`, the two timestamp-delta checks hold exactly when the window
is made of `H + F` consecutive hours. -/
theorem validWindow_iff_consecutive {H F : Nat} {w : List Obs} (hH : 1 ≤ H)
    (hF : 1 ≤ F) (hlen : w.length = H + F) (hsa : strictAsc w) :
    validWindow H F w ↔
      ∀ k, k < H + F →
        (w.getD k default).dtime = (w.getD 0 default).dtime + (k : Int) := by
  have hhead : w.headD default = w.getD 0 default := headD_eq_getD w default
  have hlast : w.getLastD default = w.getD (H + F - 1) default := by
    rw [getLastD_eq_getD, hlen]
  constructor
  · rintro ⟨h1, h2⟩ k hk
    rw [hhead, hlast, START_END_TDIFF] at h1
    have ha := strictAsc_getD_le hsa k 0 (by omega)
    have hb := strictAsc_getD_le hsa (H + F - 1 - k) k (by omega)
    have hc : k + (H + F - 1 - k) = H + F - 1 := by omega
    rw [hc] at hb
    simp only [Nat.zero_add] at ha
    omega
  · intro hcons
    constructor
    · rw [hhead, hlast, START_END_TDIFF, hcons (H + F - 1) (by omega)]
      omega
    · rw [hhead, START_NOW_TDIFF, hcons (H - 1) (by omega)]
      omega

/-! ## Loop invariants -/

/-- Every candidate index either bumps `skip_count` or contributes exactly
one row to each output, so rows plus skips always equals the number of
candidates processed. -/
theorem loopWindows_counts {H F : Nat} {data : List Obs} :
    ∀ (is : List Nat) (ins outs : List (List Rat)) (sk : Nat),
      loopWindows H F data is = .ok (ins, outs, sk) →
      ins.length + sk = is.length ∧ outs.length + sk = is.length := by
  intro is
  induction is with
  | nil =>
    intro ins outs sk h
    rw [loopWindows] at h
    simp only [Except.ok.injEq, Prod.mk.injEq] at h
    obtain ⟨h1, h2, h3⟩ := h
    simp [← h1, ← h2, ← h3]
  | cons i is ih =>
    intro ins outs sk h
    rw [loopWindows] at h
    cases hpw : processWindow H F (windowOf H F data i) with
    | error e =>
      rw [hpw] at h
      simp at h
    | ok o =>
      rw [hpw] at h
      cases o with
      | none =>
        cases hrec : loopWindows H F data is with
        | error e =>
          rw [hrec] at h
          simp at h
        | ok t =>
          obtain ⟨ins', outs', sk'⟩ := t
          rw [hrec] at h
          simp only [Except.ok.injEq, Prod.mk.injEq] at h
          obtain ⟨h1, h2, h3⟩ := h
          have := ih ins' outs' sk' hrec
          subst h1 h2
          simp only [List.length_cons]
          omega
      | some p =>
        cases hrec : loopWindows H F data is with
        | error e =>
          rw [hrec] at h
          simp at h
        | ok t =>
          obtain ⟨ins', outs', sk'⟩ := t
          rw [hrec] at h
          simp only [Except.ok.injEq, Prod.mk.injEq] at h
          obtain ⟨h1, h2, h3⟩ := h
          have := ih ins' outs' sk' hrec
          subst h1 h2 h3
          simp only [List.length_cons]
          omega

/-- When the loop finishes without raising, the number of emitted rows is
the number of candidate indices whose window passes both contiguity
checks. -/
theorem loopWindows_valid_count {H F : Nat} {data : List Obs} :
    ∀ (is : List Nat) (ins outs : List (List Rat)) (sk : Nat),
      loopWindows H F data is = .ok (ins, outs, sk) →
      ins.length =
        (is.filter fun i =>
          decide (validWindow H F (windowOf H F data i))).length := by
  intro is
  induction is with
  | nil =>
    intro ins outs sk h
    rw [loopWindows] at h
    simp only [Except.ok.injEq, Prod.mk.injEq] at h
    obtain ⟨h1, h2, h3⟩ := h
    simp [← h1]
  | cons i is ih =>
    intro ins outs sk h
    rw [loopWindows] at h
    cases hpw : processWindow H F (windowOf H F data i) with
    | error e =>
      rw [hpw] at h
      simp at h
    | ok o =>
      rw [hpw] at h
      cases o with
      | none =>
        cases hrec : loopWindows H F data is with
        | error e =>
          rw [hrec] at h
          simp at h
        | ok t =>
          obtain ⟨ins', outs', sk'⟩ := t
          rw [hrec] at h
          simp only [Except.ok.injEq, Prod.mk.injEq] at h
          obtain ⟨h1, h2, h3⟩ := h
          have hnv : ¬ validWindow H F (windowOf H F data i) :=
            processWindow_ok_none_iff.mp hpw
          subst h1
          rw [List.filter_cons, if_neg (by simpa using hnv)]
          exact ih ins' outs' sk' hrec
      | some p =>
        cases hrec : loopWindows H F data is with
        | error e =>
          rw [hrec] at h
          simp at h
        | ok t =>
          obtain ⟨ins', outs', sk'⟩ := t
          rw [hrec] at h
          simp only [Except.ok.injEq, Prod.mk.injEq] at h
          obtain ⟨h1, h2, h3⟩ := h
          have hv : validWindow H F (windowOf H F data i) := by
            by_contra hnv
            rw [processWindow_ok_none_iff.mpr hnv] at hpw
            simp at hpw
          subst h1
          rw [List.filter_cons, if_pos (by simpa using hv)]
          simp only [List.length_cons]
          rw [ih ins' outs' sk' hrec]

/-- Value `maxdataindex.toNat` agrees with the truncated `Nat` subtraction. -/
theorem maxdataindex_toNat (H F : Nat) (data : List Obs) :
    ((data.length : Int) - 1 - (F : Int) - (H : Int)).toNat = maxN H F data := by
  unfold maxN
  omega

theorem process_dataset_full_short {H F : Nat} {data : List Obs}
    (h : (data.length : Int) - 1 - (F : Int) - (H : Int) < 0) :
    process_dataset_full H F data =
      .error "ValueError: negative dimensions are not allowed" := by
  simp only [process_dataset_full]
  rw [if_pos h]

theorem process_dataset_full_ok {H F : Nat} {data : List Obs}
    {ins outs : NMatrix} {sk : Nat}
    (h : process_dataset_full H F data = .ok (ins, outs, sk)) :
    ins.cols = INPUT_LENGTH H F ∧ outs.cols = OUTPUT_LENGTH F ∧
    loopWindows H F data (List.range (maxN H F data)) =
      .ok (ins.rows, outs.rows, sk) := by
  simp only [process_dataset_full] at h
  split at h
  · simp at h
  · rw [maxdataindex_toNat] at h
    cases hl : loopWindows H F data (List.range (maxN H F data)) with
    | error e =>
      rw [hl] at h
      simp at h
    | ok t =>
      obtain ⟨ins', outs', sk'⟩ := t
      rw [hl] at h
      simp only [Except.ok.injEq, Prod.mk.injEq] at h
      obtain ⟨h1, h2, h3⟩ := h
      subst h1 h2 h3
      exact ⟨rfl, rfl, rfl⟩

theorem process_dataset_ok {H F : Nat} {data : List Obs} {ins outs : NMatrix}
    (h : process_dataset H F data = .ok (ins, outs)) :
    ∃ sk, process_dataset_full H F data = .ok (ins, outs, sk) := by
  unfold process_dataset at h
  cases hf : process_dataset_full H F data with
  | error e =>
    rw [hf] at h
    simp [Except.map] at h
  | ok t =>
    obtain ⟨a, b, c⟩ := t
    rw [hf] at h
    simp only [Except.map, Except.ok.injEq, Prod.mk.injEq] at h
    obtain ⟨h1, h2⟩ := h
    subst h1 h2
    exact ⟨c, rfl⟩

/-- When the loop finishes without raising, every emitted feature row has
length `INPUT_LENGTH` and every emitted target row has length
`OUTPUT_LENGTH`. -/
theorem loopWindows_row_widths {H F : Nat} {data : List Obs} :
    ∀ (is : List Nat) (ins outs : List (List Rat)) (sk : Nat),
      loopWindows H F data is = .ok (ins, outs, sk) →
      (∀ r ∈ ins, r.length = INPUT_LENGTH H F) ∧
      (∀ r ∈ outs, r.length = OUTPUT_LENGTH F) := by
  intro is
  induction is with
  | nil =>
    intro ins outs sk h
    rw [loopWindows] at h
    simp only [Except.ok.injEq, Prod.mk.injEq] at h
    obtain ⟨h1, h2, h3⟩ := h
    subst h1 h2
    simp
  | cons i is ih =>
    intro ins outs sk h
    rw [loopWindows] at h
    cases hpw : processWindow H F (windowOf H F data i) with
    | error e =>
      rw [hpw] at h
      simp at h
    | ok o =>
      rw [hpw] at h
      cases o with
      | none =>
        cases hrec : loopWindows H F data is with
        | error e =>
          rw [hrec] at h
          simp at h
        | ok t =>
          obtain ⟨ins', outs', sk'⟩ := t
          rw [hrec] at h
          simp only [Except.ok.injEq, Prod.mk.injEq] at h
          obtain ⟨h1, h2, h3⟩ := h
          subst h1 h2
          exact ih ins' outs' sk' hrec
      | some p =>
        cases hrec : loopWindows H F data is with
        | error e =>
          rw [hrec] at h
          simp at h
        | ok t =>
          obtain ⟨ins', outs', sk'⟩ := t
          rw [hrec] at h
          simp only [Except.ok.injEq, Prod.mk.injEq] at h
          obtain ⟨h1, h2, h3⟩ := h
          have hlen : p.1.length = INPUT_LENGTH H F ∧
              p.2.length = OUTPUT_LENGTH F := by
            unfold processWindow at hpw
            split at hpw
            · simp at hpw
            · split at hpw
              · simp at hpw
              · split at hpw
                · next hc =>
                    simp only [Except.ok.injEq, Option.some.injEq] at hpw
                    rw [← hpw]
                    exact hc
                · simp at hpw
          obtain ⟨hin, hout⟩ := ih ins' outs' sk' hrec
          subst h1 h2
          constructor
          · intro r hr
            rcases List.mem_cons.mp hr with hr | hr
            · rw [hr]; exact hlen.1
            · exact hin r hr
          · intro r hr
            rcases List.mem_cons.mp hr with hr | hr
            · rw [hr]; exact hlen.2
            · exact hout r hr

/-! ## Claim theorems -/

/-- C4: in a strictly ascending hourly sequence that is gap-free except for
a single inserted 1-hour gap (a gap-free sequence `orig` with the interior
observation after position `g` removed), a candidate window is skipped
exactly when its span contains the gap, and every candidate window not
overlapping the gap produces the same feature/target row as the
corresponding window of the gap-free input. -/
theorem gap_sensitivity (H F : Nat) (orig : List Obs) (g : Nat)
    (hH : 1 ≤ H) (hF : 1 ≤ F) (hcons : hourlyConsecutive orig)
    (hg : g + 2 ≤ orig.length) :
    ∀ i, i < maxN H F (orig.eraseIdx (g + 1)) →
      (processWindow H F (windowOf H F (orig.eraseIdx (g + 1)) i) = .ok none ↔
        (i ≤ g ∧ g + 2 ≤ i + H + F)) ∧
      (¬(i ≤ g ∧ g + 2 ≤ i + H + F) →
        ∃ p, processWindow H F (windowOf H F (orig.eraseIdx (g + 1)) i) =
              .ok (some p) ∧
          processWindow H F
              (windowOf H F orig (if g < i then i + 1 else i)) =
            .ok (some p)) := by
  intro i hi
  set data := orig.eraseIdx (g + 1) with hdata
  have hlen_data : data.length = orig.length - 1 := by
    rw [hdata, List.length_eraseIdx, if_pos (by omega)]
  have hib : i + (H + F) + 2 ≤ data.length := by
    have : maxN H F data = data.length - 1 - F - H := rfl
    omega
  have hD := getD_dtime_eraseIdx hcons hg
  rw [← hdata] at hD
  have hwlen : (windowOf H F data i).length = H + F :=
    length_windowOf (by omega)
  have hviff : validWindow H F (windowOf H F data i) ↔
      ¬(i ≤ g ∧ g + 2 ≤ i + H + F) := by
    unfold validWindow
    rw [headD_eq_getD, getLastD_eq_getD, hwlen]
    rw [getD_windowOf default (by omega), getD_windowOf default (by omega),
      getD_windowOf default (by omega)]
    rw [hD (i + 0) (by omega), hD (i + (H + F - 1)) (by omega),
      hD (i + (H - 1)) (by omega)]
    unfold START_END_TDIFF START_NOW_TDIFF
    split_ifs <;> constructor <;> intro hc <;> omega
  refine ⟨by rw [processWindow_ok_none_iff, hviff]; exact not_not, ?_⟩
  intro hns
  set i' := if g < i then i + 1 else i with hi'
  have hio : i' + (H + F) ≤ orig.length := by
    rw [hi']
    split_ifs <;> omega
  have hweq : windowOf H F data i = windowOf H F orig i' := by
    apply list_eq_of_getD
    · rw [hwlen, length_windowOf hio]
    · intro k hk
      rw [hwlen] at hk
      rw [getD_windowOf default hk, getD_windowOf default hk]
      by_cases hgi : g < i
      · rw [hi', if_pos hgi, hdata, getD_eraseIdx_ge (by omega) (by omega)]
        congr 1
        omega
      · rw [hi', if_neg hgi, hdata, getD_eraseIdx_lt (by omega)]
  have hosa : strictAsc orig := strictAsc_of_hourlyConsecutive hcons
  have hwosa : strictAsc (windowOf H F orig i') := strictAsc_windowOf hosa
  have hwolen : (windowOf H F orig i').length = H + F := length_windowOf hio
  have hov : validWindow H F (windowOf H F orig i') := by
    rw [validWindow_iff_consecutive hH hF hwolen hwosa]
    intro k hk
    rw [getD_windowOf default hk, getD_windowOf default (by omega),
      hcons (i' + k) (by omega), hcons (i' + 0) (by omega)]
    push_cast
    ring
  have hrow := processWindow_of_strictAsc hH hwolen hwosa hov
  exact ⟨_, by rw [hweq]; exact hrow, hrow⟩

/-! ## Concrete inputs used by the claims and witnesses -/

/-- An observation with constant static fields, `weather_description_id = 1`
and `temperature = 15.0`. -/
def mkObs (t : Int) (p : Rat) : Obs :=
  ⟨t, 2016, 0, 0, 40, -80, 1, 15, p⟩

/-- The spec's concrete scenario: four gap-free consecutive hourly
observations with `power_mw = [10, 20, 30, 40]`. -/
def c1data : List Obs := [mkObs 0 10, mkObs 1 20, mkObs 2 30, mkObs 3 40]

/-- Three gap-free consecutive hourly observations. -/
def c2data : List Obs := [mkObs 0 10, mkObs 1 20, mkObs 2 30]

/-- Two gap-free consecutive hourly observations. -/
def c3data : List Obs := [mkObs 0 10, mkObs 1 20]

/-- Five gap-free consecutive hourly observations. -/
def c4orig : List Obs :=
  [mkObs 0 10, mkObs 1 20, mkObs 2 30, mkObs 3 40, mkObs 4 50]

/-- C1: on the spec's concrete scenario (`H=2`, `F=1`, powers
`[10, 20, 30, 40]` at consecutive hours) the claim expects 2 valid windows,
but `maxdataindex = 4 - 1 - 1 - 2 = 0` makes the loop body never run: the
code returns two zero-row matrices. -/
theorem concrete_scenario_zero_windows :
    process_dataset 2 1 c1data = .ok (⟨13, []⟩, ⟨1, []⟩) := by
  rfl

/-- C2: on any gap-free input of exactly `H + F` observations the claim
expects one valid window, but `maxdataindex = -1` makes
`np.zeros((-1, _))` raise `ValueError`: the extractor raises instead of
returning. -/
theorem exact_length_input_raises (H F : Nat) (data : List Obs)
    (hlen : data.length = H + F) (_hcons : hourlyConsecutive data) :
    process_dataset H F data =
      .error "ValueError: negative dimensions are not allowed" := by
  unfold process_dataset
  rw [process_dataset_full_short (by omega)]
  rfl

/-- C2 witness. -/
theorem exact_length_input_raises_witness :
    c2data.length = 2 + 1 ∧
    process_dataset 2 1 c2data =
      .error "ValueError: negative dimensions are not allowed" :=
  ⟨by decide, exact_length_input_raises 2 1 c2data (by decide) (by decide)⟩

/-- C3: on any input of fewer than `H + F` observations the claim expects
two zero-row matrices and no exception, but `maxdataindex <= -2` makes
`np.zeros` raise `ValueError`: the extractor raises instead of
returning. -/
theorem short_input_raises (H F : Nat) (data : List Obs)
    (hlen : data.length < H + F) :
    process_dataset H F data =
      .error "ValueError: negative dimensions are not allowed" := by
  unfold process_dataset
  rw [process_dataset_full_short (by omega)]
  rfl

/-- C3 witness. -/
theorem short_input_raises_witness :
    c3data.length < 2 + 1 ∧
    process_dataset 2 1 c3data =
      .error "ValueError: negative dimensions are not allowed" :=
  ⟨by decide, short_input_raises 2 1 c3data (by decide)⟩

/-- C4 witness: `H = F = 1`, five consecutive observations with the one
after position 0 removed; candidate 0 spans the gap and is skipped. -/
theorem gap_sensitivity_witness :
    processWindow 1 1 (windowOf 1 1 (c4orig.eraseIdx 1) 0) = .ok none :=
  ((gap_sensitivity 1 1 c4orig 0 (by decide) (by decide) (by decide)
    (by decide) 0 (by decide)).1).mpr (by decide)

/-- C5: for a strictly ascending window of `H + F` observations, the two
timestamp-delta equalities of the contiguity check hold exactly when the
window's timestamps are `H + F` consecutive hours. -/
theorem contiguity_checks_iff_consecutive_hours {H F : Nat} {w : List Obs}
    (hH : 1 ≤ H) (hF : 1 ≤ F) (hlen : w.length = H + F)
    (hsa : strictAsc w) :
    validWindow H F w ↔
      ∀ k, k < H + F →
        (w.getD k default).dtime = (w.getD 0 default).dtime + (k : Int) :=
  validWindow_iff_consecutive hH hF hlen hsa

/-- C5 witness: four consecutive hourly observations pass both checks for
`H = F = 2`. -/
theorem contiguity_checks_iff_consecutive_hours_witness :
    validWindow 2 2 c1data :=
  (@contiguity_checks_iff_consecutive_hours 2 2 c1data (by decide)
    (by decide) (by decide) (by decide)).mpr (by decide)

/-- C6: whenever the extractor returns, the two matrices have the same
number of rows, and that count is the number of candidate windows that pass
both contiguity checks. -/
theorem row_counts_eq_valid_window_count {H F : Nat} {data : List Obs}
    (_hH : 1 ≤ H) (_hF : 1 ≤ F) (_hsa : strictAsc data) {ins outs : NMatrix}
    (h : process_dataset H F data = .ok (ins, outs)) :
    ins.rows.length = outs.rows.length ∧
    ins.rows.length = validwindowcount H F data := by
  obtain ⟨sk, hf⟩ := process_dataset_ok h
  obtain ⟨-, -, hl⟩ := process_dataset_full_ok hf
  have hc := loopWindows_counts _ _ _ _ hl
  have hv := loopWindows_valid_count _ _ _ _ hl
  refine ⟨by omega, ?_⟩
  unfold validwindowcount
  exact hv

/-- C6 witness. -/
theorem row_counts_eq_valid_window_count_witness :
    (NMatrix.rows ⟨10, [[2016, 0, 0, 40, -80, 1, 15, 10, 1, 15]]⟩).length =
        (NMatrix.rows ⟨1, [[20]]⟩).length ∧
    (NMatrix.rows ⟨10, [[2016, 0, 0, 40, -80, 1, 15, 10, 1, 15]]⟩).length =
        validwindowcount 1 1 c1data :=
  @row_counts_eq_valid_window_count 1 1 c1data (by decide) (by decide)
    (by decide) ⟨10, [[2016, 0, 0, 40, -80, 1, 15, 10, 1, 15]]⟩ ⟨1, [[20]]⟩
    (by rfl)

/-- C7: whenever the extractor returns, the feature matrix has exactly
`5 + 3H + 2F` columns and the target matrix exactly `F`, both as numpy
shape and as the length of every emitted row. -/
theorem fixed_column_widths {H F : Nat} {data : List Obs}
    {ins outs : NMatrix}
    (h : process_dataset H F data = .ok (ins, outs)) :
    ins.cols = 5 + 3 * H + 2 * F ∧ outs.cols = F ∧
    (∀ r ∈ ins.rows, r.length = 5 + 3 * H + 2 * F) ∧
    (∀ r ∈ outs.rows, r.length = F) := by
  obtain ⟨sk, hf⟩ := process_dataset_ok h
  obtain ⟨hci, hco, hl⟩ := process_dataset_full_ok hf
  obtain ⟨hri, hro⟩ := loopWindows_row_widths _ _ _ _ hl
  have he : INPUT_LENGTH H F = 5 + 3 * H + 2 * F := by
    unfold INPUT_LENGTH
    omega
  refine ⟨by rw [hci, he], by rw [hco]; rfl, ?_, ?_⟩
  · intro r hr
    rw [hri r hr, he]
  · intro r hr
    rw [hro r hr]
    rfl

/-- C7 witness. -/
theorem fixed_column_widths_witness :
    (⟨10, [[2016, 0, 0, 40, -80, 1, 15, 10, 1, 15]]⟩ : NMatrix).cols =
        5 + 3 * 1 + 2 * 1 ∧
    (⟨1, [[20]]⟩ : NMatrix).cols = 1 :=
  ⟨(@fixed_column_widths 1 1 c1data
      ⟨10, [[2016, 0, 0, 40, -80, 1, 15, 10, 1, 15]]⟩ ⟨1, [[20]]⟩
      (by rfl)).1,
   (@fixed_column_widths 1 1 c1data
      ⟨10, [[2016, 0, 0, 40, -80, 1, 15, 10, 1, 15]]⟩ ⟨1, [[20]]⟩
      (by rfl)).2.1⟩

/-- C8: in a strictly ascending input, a candidate window that passes both
contiguity checks has exactly `H` observations with `dtime <= now.dtime`
and exactly `F` with `dtime > now.dtime`, so the loop body's
assertion-failure branch is unreachable. -/
theorem assertion_branch_unreachable {H F : Nat} {data : List Obs} {i : Nat}
    (hH : 1 ≤ H) (_hF : 1 ≤ F) (hsa : strictAsc data)
    (hib : i + (H + F) ≤ data.length)
    (hv : validWindow H F (windowOf H F data i)) :
    ((windowOf H F data i).countP fun o =>
        decide (o.dtime ≤
          ((windowOf H F data i).getD (H - 1) default).dtime)) = H ∧
    ((windowOf H F data i).countP fun o =>
        !decide (o.dtime ≤
          ((windowOf H F data i).getD (H - 1) default).dtime)) = F ∧
    ∀ e, processWindow H F (windowOf H F data i) ≠ .error e := by
  have hwlen := length_windowOf hib
  have hwsa : strictAsc (windowOf H F data i) := strictAsc_windowOf hsa
  refine ⟨countP_history hH hwlen hwsa rfl, countP_future hH hwlen hwsa rfl,
    ?_⟩
  intro e he
  rw [processWindow_of_strictAsc hH hwlen hwsa hv] at he
  simp at he

/-- C8 witness. -/
theorem assertion_branch_unreachable_witness :
    ((windowOf 1 1 c1data 0).countP fun o =>
        decide (o.dtime ≤
          ((windowOf 1 1 c1data 0).getD (1 - 1) default).dtime)) = 1 ∧
    processWindow 1 1 (windowOf 1 1 c1data 0) ≠ .error "AssertionError" :=
  ⟨(@assertion_branch_unreachable 1 1 c1data 0 (by decide) (by decide)
      (by decide) (by decide) (by decide)).1,
   (@assertion_branch_unreachable 1 1 c1data 0 (by decide) (by decide)
      (by decide) (by decide) (by decide)).2.2 "AssertionError"⟩

/-- C9: every candidate index either bumps the skip counter or contributes
exactly one row to each matrix, so rows-emitted plus skips equals the
candidates processed at every point of the loop, and on return the row
count plus the skip count equals the number of candidate start indices. -/
theorem row_skip_partition (H F : Nat) (data : List Obs) :
    (∀ (is : List Nat) (ins outs : List (List Rat)) (sk : Nat),
        loopWindows H F data is = .ok (ins, outs, sk) →
        ins.length + sk = is.length ∧ outs.length + sk = is.length) ∧
    (∀ (ins outs : NMatrix) (sk : Nat),
        process_dataset_full H F data = .ok (ins, outs, sk) →
        ins.rows.length + sk = maxN H F data ∧
        outs.rows.length + sk = maxN H F data) := by
  refine ⟨fun is ins outs sk h => loopWindows_counts is ins outs sk h, ?_⟩
  intro ins outs sk h
  obtain ⟨-, -, hl⟩ := process_dataset_full_ok h
  have hc := loopWindows_counts _ _ _ _ hl
  rwa [List.length_range] at hc

/-- C9 witness. -/
theorem row_skip_partition_witness :
    (NMatrix.rows ⟨10, [[2016, 0, 0, 40, -80, 1, 15, 10, 1, 15]]⟩).length
        + 0 = maxN 1 1 c1data ∧
    (NMatrix.rows ⟨1, [[20]]⟩).length + 0 = maxN 1 1 c1data :=
  (row_skip_partition 1 1 c1data).2
    ⟨10, [[2016, 0, 0, 40, -80, 1, 15, 10, 1, 15]]⟩ ⟨1, [[20]]⟩ 0
    (by rfl)

/-- C10: the extractor is a pure function of its input: two runs on the
same observations with the same `H` and `F` return identical results. -/
theorem extractor_deterministic (H F : Nat) (data : List Obs)
    (r₁ r₂ : Except String (NMatrix × NMatrix))
    (h₁ : process_dataset H F data = r₁)
    (h₂ : process_dataset H F data = r₂) : r₁ = r₂ := by
  rw [← h₁, ← h₂]

/-- C10 witness. -/
theorem extractor_deterministic_witness :
    (Except.ok (⟨10, [[2016, 0, 0, 40, -80, 1, 15, 10, 1, 15]]⟩,
        ⟨1, [[20]]⟩) : Except String (NMatrix × NMatrix)) =
      .ok (⟨10, [[2016, 0, 0, 40, -80, 1, 15, 10, 1, 15]]⟩, ⟨1, [[20]]⟩) :=
  extractor_deterministic 1 1 c1data _ _ (by rfl) (by rfl)
